import Mathlib

/-!
Verification of the tariff synchronization backend.

The definitions below are a shallow embedding of the repository's core logic:
the rate limiter (src/utils/rate-limiter.ts), the retry queue contract, the
data aggregator (services/data-aggregator), the sync jobs
(jobs/sync-tariffs.ts, jobs/sync-updates.ts) and the notification service
(services/notification-service).  JavaScript numbers are modelled as rationals,
database tables as lists of rows, and time as natural-number milliseconds.
-/

/-- Value of a loosely typed JSON field that may hold a number or a string. -/
inductive JVal where
  | num (q : ℚ)
  | str (s : String)
deriving DecidableEq, Repr

/-- Decimal digits read as a natural number (helper for the parseFloat model). -/
def readDigits (cs : List Char) : Nat :=
  cs.foldl (fun a c => a * 10 + (c.toNat - 48)) 0

/-- Rational value of a parsed decimal literal: sign, integer part, fraction
digits value and fraction length. -/
def mkDecimal (neg : Bool) (ip fv fl : Nat) : ℚ :=
  (if neg then (-1 : ℚ) else 1) * ((ip : ℚ) + (fv : ℚ) / (10 : ℚ) ^ fl)

/-- Model of JavaScript parseFloat on decimal strings: optional sign, integer
part, optional fractional part; trailing junk is ignored; a string with no
leading numeric prefix parses to none (NaN in JavaScript). -/
def jsParseFloat (s : String) : Option ℚ :=
  let cs := s.data.dropWhile (fun c => decide (c = ' '))
  let signAndRest : Bool × List Char :=
    match cs with
    | '-' :: rest => (true, rest)
    | '+' :: rest => (false, rest)
    | _ => (false, cs)
  let intPart := signAndRest.2.takeWhile Char.isDigit
  let rest1 := signAndRest.2.dropWhile Char.isDigit
  match rest1 with
  | '.' :: rest2 =>
    let fracPart := rest2.takeWhile Char.isDigit
    if intPart.isEmpty && fracPart.isEmpty then none
    else some (mkDecimal signAndRest.1 (readDigits intPart) (readDigits fracPart) fracPart.length)
  | _ =>
    if intPart.isEmpty then none
    else some (mkDecimal signAndRest.1 (readDigits intPart) 0 0)

/-- Numeric coercion used by updateTariffRates and the tariff sync:
parseFloat(String(rate.rate)) with the falsy fallback 0 for a failed parse. -/
def parseNumericOr0 : JVal → ℚ
  | .num q => q
  | .str s => (jsParseFloat s).getD 0

/-- One entry of a product's additional_rates list. -/
structure AdditionalRate where
  type : String
  rate : JVal
  countries : Option (List String)
deriving DecidableEq, Repr

/-- Total rate computed by updateTariffRates: the running sum starts at the
base rate and adds the numeric parse of each additional rate. -/
def computeTotalRate (baseRate : ℚ) (additionalRates : List AdditionalRate) : ℚ :=
  additionalRates.foldl (fun tot r => tot + parseNumericOr0 r.rate) baseRate

/-- Row of the tariff_rates table. -/
structure TariffRateRow where
  product_id : String
  country_id : String
  base_rate : ℚ
  additional_rates : List AdditionalRate
  total_rate : ℚ
  effective_date : String
  updated_at : Nat
deriving DecidableEq, Repr

/-- Natural key of a tariff_rates row (the upsert onConflict columns). -/
def tariffKey (r : TariffRateRow) : String × String × String :=
  (r.product_id, r.country_id, r.effective_date)

/-- Model of updateTariffRates (services/data-aggregator): compute the total
rate and upsert one row keyed by (product_id, country_id, effective_date).
The upsert replaces any existing row with the same key. -/
def updateTariffRates (store : List TariffRateRow) (productId countryId : String)
    (baseRate : ℚ) (additionalRates : List AdditionalRate) (effectiveDate : String)
    (now : Nat) : List TariffRateRow :=
  let row : TariffRateRow :=
    { product_id := productId
      country_id := countryId
      base_rate := baseRate
      additional_rates := additionalRates
      total_rate := computeTotalRate baseRate additionalRates
      effective_date := effectiveDate
      updated_at := now }
  store.filter (fun r => decide (tariffKey r ≠ (productId, countryId, effectiveDate))) ++ [row]

/-- Rows of the store that carry a given natural key. -/
def rowsForKey (store : List TariffRateRow) (k : String × String × String) :
    List TariffRateRow :=
  store.filter (fun r => decide (tariffKey r = k))

theorem jsParseFloat_two_point_five : jsParseFloat "2.5" = some (mkDecimal false 2 5 1) := rfl

theorem jsParseFloat_abc : jsParseFloat "abc" = none := rfl

theorem computeTotalRate_eq_sum (base : ℚ) (rates : List AdditionalRate) :
    computeTotalRate base rates = base + (rates.map (fun r => parseNumericOr0 r.rate)).sum := by
  induction rates generalizing base with
  | nil => simp [computeTotalRate]
  | cons r rs ih =>
    simp only [computeTotalRate, List.foldl_cons, List.map_cons, List.sum_cons] at *
    rw [ih]
    ring

theorem rowsForKey_updateTariffRates (store : List TariffRateRow)
    (pid cid : String) (base : ℚ) (rates : List AdditionalRate) (eff : String) (now : Nat) :
    rowsForKey (updateTariffRates store pid cid base rates eff now) (pid, cid, eff) =
      [{ product_id := pid
         country_id := cid
         base_rate := base
         additional_rates := rates
         total_rate := computeTotalRate base rates
         effective_date := eff
         updated_at := now }] := by
  unfold rowsForKey updateTariffRates
  rw [List.filter_append, List.filter_filter]
  have h1 : ∀ r : TariffRateRow,
      ((decide (tariffKey r = (pid, cid, eff))) &&
        (decide (tariffKey r ≠ (pid, cid, eff)))) = false := by
    intro r
    by_cases h : tariffKey r = (pid, cid, eff) <;> simp [h]
  simp only [h1, List.filter_false, List.nil_append]
  simp [tariffKey]

/-- C1: for every baseRate and list of additionalRates, updateTariffRates
persists exactly one row for the key whose total_rate equals baseRate plus the
sum of the numeric parses of the rate fields (non-numeric contributes 0); in
particular base_rate 5 with rates "2.5" and "abc" yields total_rate 7.5. -/
theorem updateTariffRates_total_rate :
    (∀ (store : List TariffRateRow) (pid cid : String) (base : ℚ)
       (rates : List AdditionalRate) (eff : String) (now : Nat),
       ∃ row : TariffRateRow,
         rowsForKey (updateTariffRates store pid cid base rates eff now) (pid, cid, eff) = [row] ∧
         row.total_rate = base + (rates.map (fun r => parseNumericOr0 r.rate)).sum) ∧
    computeTotalRate 5
      [{ type := "section301", rate := JVal.str "2.5", countries := none },
       { type := "other", rate := JVal.str "abc", countries := none }] = 15 / 2 := by
  constructor
  · intro store pid cid base rates eff now
    refine ⟨_, rowsForKey_updateTariffRates store pid cid base rates eff now, ?_⟩
    simpa using computeTotalRate_eq_sum base rates
  · simp only [computeTotalRate, List.foldl_cons, List.foldl_nil, parseNumericOr0,
      jsParseFloat_two_point_five, jsParseFloat_abc, Option.getD_some, Option.getD_none]
    norm_num [mkDecimal]

/-- Row of the countries table as selected by the tariff sync. -/
structure Country where
  id : String
  code : String
  name : String
deriving DecidableEq, Repr

/-- Row of the products table as selected by the tariff sync; additional_rates
is a loosely typed JSON column, none models a non-array value. -/
structure Product where
  id : String
  hts_code : String
  name : String
  base_rate : ℚ
  additional_rates : Option (List AdditionalRate)
deriving DecidableEq, Repr

/-- One trade agreement returned by getTradeAgreements. -/
structure TradeAgreement where
  code : String
  countries : List String
deriving DecidableEq, Repr

/-- Model of adjustRatesForTradeAgreements (jobs/sync-tariffs.ts): when the
country participates in an FTA agreement, standard-typed additional rates are
zeroed; otherwise the input list is returned as-is. -/
def adjustRatesForTradeAgreements (rates : List AdditionalRate)
    (agreementCodes : List String) : List AdditionalRate :=
  if agreementCodes.contains "FTA" then
    rates.map (fun r =>
      if r.type = "standard" then { r with rate := JVal.num 0 } else r)
  else rates

/-- C10: adjustRatesForTradeAgreements preserves the length of its input, is
the identity when "FTA" is absent from the agreement codes, and pointwise the
only change it can make is setting the rate field of a standard-typed entry
to 0, leaving every other entry unchanged. -/
theorem adjustRatesForTradeAgreements_frame :
    ∀ (rates : List AdditionalRate) (codes : List String),
      (adjustRatesForTradeAgreements rates codes).length = rates.length ∧
      ("FTA" ∉ codes → adjustRatesForTradeAgreements rates codes = rates) ∧
      (∀ i : Nat, (adjustRatesForTradeAgreements rates codes)[i]? =
        (rates[i]?).map (fun r =>
          if "FTA" ∈ codes ∧ r.type = "standard" then
            { r with rate := JVal.num 0 }
          else r)) := by
  intro rates codes
  unfold adjustRatesForTradeAgreements
  by_cases h : "FTA" ∈ codes
  · refine ⟨by simp [h], by simp [h], ?_⟩
    intro i
    rw [if_pos (List.elem_eq_true_of_mem h), List.getElem?_map]
    cases rates[i]? with
    | none => rfl
    | some r =>
      by_cases ht : r.type = "standard" <;> simp [ht, h]
  · refine ⟨by simp [h], fun _ => by simp [h], ?_⟩
    intro i
    rw [if_neg (fun hc => h (List.mem_of_elem_eq_true hc))]
    cases rates[i]? with
    | none => rfl
    | some r => simp [h]

/-- Additional rates applicable to one country (jobs/sync-tariffs.ts): a
non-array column yields the empty list; an entry applies when its countries
field is absent or includes the country code. -/
def ratesForCountry (product : Product) (country : Country) : List AdditionalRate :=
  match product.additional_rates with
  | none => []
  | some rs => rs.filter (fun r =>
      match r.countries with
      | none => true
      | some cs => cs.contains country.code)

/-- Agreement codes applicable to a country code, in agreement order, as built
by the countryAgreements map of the tariff sync. -/
def agreementCodesFor (agreements : List TradeAgreement) (countryCode : String) :
    List String :=
  (agreements.filter (fun a => a.countries.contains countryCode)).map (fun a => a.code)

/-- Adjusted additional rates for one product-country item of the tariff sync:
trade-agreement adjustment applies only when the country has agreement codes. -/
def tariffItemAdjustedRates (agreements : List TradeAgreement) (product : Product)
    (country : Country) : List AdditionalRate :=
  let base := ratesForCountry product country
  let codes := agreementCodesFor agreements country.code
  if codes.length > 0 then adjustRatesForTradeAgreements base codes else base

/-- New total rate computed inside the per-item task of the tariff sync. -/
def tariffItemNewTotal (agreements : List TradeAgreement) (product : Product)
    (country : Country) : ℚ :=
  computeTotalRate product.base_rate (tariffItemAdjustedRates agreements product country)

/-- The notification guard of the tariff sync: a previous rate must exist and
the absolute change must be at least one percentage point. -/
def rateChangeTriggered (prevTotalRate : Option ℚ) (newTotalRate : ℚ) : Bool :=
  match prevTotalRate with
  | none => false
  | some p => decide (1 ≤ |newTotalRate - p|)

/-- Whether the per-item task of the tariff sync emits a rate_change
notification for the given previous total rate. -/
def tariffItemNotifies (agreements : List TradeAgreement) (product : Product)
    (country : Country) (prevTotalRate : Option ℚ) : Bool :=
  rateChangeTriggered prevTotalRate (tariffItemNewTotal agreements product country)

/-- C6: in the tariff sync a rate_change notification is emitted iff a prior
total rate exists and the absolute difference between the newly computed total
and the prior total is at least 1; prior 10 with new 11.5 notifies, prior 10
with new 10.5 does not, and without a prior rate nothing is emitted. -/
theorem syncTariffs_rate_change_notification :
    (∀ (ag : List TradeAgreement) (p : Product) (c : Country) (prev : Option ℚ),
       tariffItemNotifies ag p c prev = true ↔
         ∃ q, prev = some q ∧ 1 ≤ |tariffItemNewTotal ag p c - q|) ∧
    rateChangeTriggered (some 10) (23 / 2) = true ∧
    rateChangeTriggered (some 10) (21 / 2) = false ∧
    (∀ new : ℚ, rateChangeTriggered none new = false) := by
  refine ⟨?_, ?_, ?_, fun _ => rfl⟩
  · intro ag p c prev
    cases prev with
    | none => simp [tariffItemNotifies, rateChangeTriggered]
    | some q => simp [tariffItemNotifies, rateChangeTriggered]
  · simp only [rateChangeTriggered, decide_eq_true_eq]
    rw [show (23 : ℚ) / 2 - 10 = 3 / 2 by norm_num,
      abs_of_nonneg (by norm_num : (0 : ℚ) ≤ 3 / 2)]
    norm_num
  · simp only [rateChangeTriggered, decide_eq_false_iff_not, not_le]
    rw [show (21 : ℚ) / 2 - 10 = 1 / 2 by norm_num,
      abs_of_nonneg (by norm_num : (0 : ℚ) ≤ 1 / 2)]
    norm_num

/-- C4: upserting a tariff rate twice for the same (product, country,
effective_date) key, with different payloads, leaves exactly one stored row for
that key, carrying the second payload; re-delivering the very same work again
leaves the store unchanged (idempotent convergence). -/
theorem updateTariffRates_upsert_idempotent :
    ∀ (store : List TariffRateRow) (pid cid : String) (b1 b2 : ℚ)
      (r1 r2 : List AdditionalRate) (eff : String) (t1 t2 : Nat),
      rowsForKey
        (updateTariffRates (updateTariffRates store pid cid b1 r1 eff t1)
          pid cid b2 r2 eff t2) (pid, cid, eff) =
        [{ product_id := pid
           country_id := cid
           base_rate := b2
           additional_rates := r2
           total_rate := computeTotalRate b2 r2
           effective_date := eff
           updated_at := t2 }] ∧
      updateTariffRates (updateTariffRates store pid cid b2 r2 eff t2)
          pid cid b2 r2 eff t2 =
        updateTariffRates store pid cid b2 r2 eff t2 := by
  intro store pid cid b1 b2 r1 r2 eff t1 t2
  constructor
  · exact rowsForKey_updateTariffRates _ pid cid b2 r2 eff t2
  · unfold updateTariffRates
    rw [List.filter_append, List.filter_filter]
    have h1 : ∀ r : TariffRateRow,
        ((decide (tariffKey r ≠ (pid, cid, eff))) &&
          (decide (tariffKey r ≠ (pid, cid, eff)))) =
          decide (tariffKey r ≠ (pid, cid, eff)) := by
      intro r
      by_cases h : tariffKey r = (pid, cid, eff) <;> simp [h]
    simp only [h1]
    simp [tariffKey]

/-- Notification type column of the notifications table. -/
inductive NotifType where
  | rate_change
  | new_ruling
  | exclusion
  | system
deriving DecidableEq, Repr

/-- Row of the user_watchlists table. -/
structure WatchlistEntry where
  user_id : String
  product_id : String
  notify_changes : Bool
deriving DecidableEq, Repr

/-- Payload handed to notifyProductWatchers. -/
structure NotificationData where
  title : String
  message : String
  type : NotifType
  productId : String
deriving DecidableEq, Repr

/-- Row inserted into the notifications table. -/
structure NotificationRow where
  user_id : String
  title : String
  message : String
  type : NotifType
  read : Bool
deriving DecidableEq, Repr

/-- Model of notifyProductWatchers (services/notification-service): select the
watchlist entries for the product with notify_changes true and insert one
notification row per entry; with no watchers nothing is inserted. -/
def notifyProductWatchers (watchlists : List WatchlistEntry)
    (data : NotificationData) : List NotificationRow :=
  let watchers := watchlists.filter (fun w =>
    decide (w.product_id = data.productId) && w.notify_changes)
  watchers.map (fun w =>
    { user_id := w.user_id
      title := data.title
      message := data.message
      type := data.type
      read := false })

/-- Snapshot of a product as passed to checkProductChanges; rulings and
exclusions are loosely typed columns, none models a non-array value. -/
structure ProductSnapshot where
  name : String
  total_rate : ℚ
  rulings : Option (List String)
  exclusions : Option (List String)
deriving Repr

/-- Count used by checkProductChanges: Array.isArray(x) gives the length,
anything else counts 0. -/
def jsArrayCount (v : Option (List String)) : Nat := (v.getD []).length

/-- Model of checkProductChanges (services/notification-service): one
notification fan-out per qualifying dimension, in source order
(total_rate any change, then ruling count increase, then exclusion count
increase). -/
def checkProductChanges (watchlists : List WatchlistEntry) (productId : String)
    (oldData newData : ProductSnapshot) : List NotificationRow :=
  (if oldData.total_rate ≠ newData.total_rate then
    notifyProductWatchers watchlists
      { title := "Tariff Rate Changed"
        message := "The tariff rate for " ++ newData.name ++ " has changed"
        type := NotifType.rate_change
        productId := productId }
  else []) ++
  (if jsArrayCount newData.rulings > jsArrayCount oldData.rulings then
    notifyProductWatchers watchlists
      { title := "New Ruling Available"
        message := "A new customs ruling has been issued for " ++ newData.name
        type := NotifType.new_ruling
        productId := productId }
  else []) ++
  (if jsArrayCount newData.exclusions > jsArrayCount oldData.exclusions then
    notifyProductWatchers watchlists
      { title := "New Exclusion Available"
        message := "A new exclusion has been added for " ++ newData.name
        type := NotifType.exclusion
        productId := productId }
  else [])

/-- Watchlist entries of one user for one product with notifications enabled. -/
def watcherEntryCount (watchlists : List WatchlistEntry) (u pid : String) : Nat :=
  (watchlists.filter (fun w =>
    decide (w.product_id = pid) && w.notify_changes && decide (w.user_id = u))).length

/-- Whether a change dimension of the diff qualifies for a notification of the
given type. -/
def dimTriggered (ty : NotifType) (oldData newData : ProductSnapshot) : Bool :=
  match ty with
  | .rate_change => decide (oldData.total_rate ≠ newData.total_rate)
  | .new_ruling => decide (jsArrayCount newData.rulings > jsArrayCount oldData.rulings)
  | .exclusion => decide (jsArrayCount newData.exclusions > jsArrayCount oldData.exclusions)
  | .system => false

/-- Notifications of a given type addressed to a given user. -/
def notifsTo (ns : List NotificationRow) (u : String) (ty : NotifType) : Nat :=
  (ns.filter (fun n => decide (n.user_id = u) && decide (n.type = ty))).length

theorem notifsTo_nil (u : String) (ty : NotifType) : notifsTo [] u ty = 0 := rfl

theorem notifsTo_append (a b : List NotificationRow) (u : String) (ty : NotifType) :
    notifsTo (a ++ b) u ty = notifsTo a u ty + notifsTo b u ty := by
  simp [notifsTo, List.filter_append]

theorem notifsTo_notifyProductWatchers (wl : List WatchlistEntry)
    (d : NotificationData) (u : String) (ty : NotifType) :
    notifsTo (notifyProductWatchers wl d) u ty =
      if ty = d.type then watcherEntryCount wl u d.productId else 0 := by
  unfold notifsTo notifyProductWatchers watcherEntryCount
  simp only [← List.countP_eq_length_filter, List.countP_map, List.countP_filter]
  by_cases hty : ty = d.type
  · subst hty
    simp only [if_pos rfl]
    apply List.countP_congr
    intro w _
    by_cases hp : w.product_id = d.productId <;>
      by_cases hn : w.notify_changes = true <;>
      by_cases hu : w.user_id = u <;>
      simp [hp, hn, hu, Function.comp]
  · rw [if_neg hty, List.countP_eq_zero]
    intro w _
    have hq : d.type ≠ ty := fun h => hty h.symm
    simp [Function.comp, hq]

theorem notifyProductWatchers_eq_nil (wl : List WatchlistEntry)
    (d : NotificationData)
    (h : wl.filter (fun w => decide (w.product_id = d.productId) && w.notify_changes) = []) :
    notifyProductWatchers wl d = [] := by
  unfold notifyProductWatchers
  rw [h]
  rfl

/-- C8: the change diff emits, for each watchlist entry of the product with
notify_changes true, exactly one notification per qualifying dimension
(total_rate: any change; rulings and exclusions: strict count increase), of
type rate_change, new_ruling or exclusion; users watching another product or
with the flag false receive none, and with no watchers nothing is inserted. -/
theorem checkProductChanges_fanout :
    ∀ (wl : List WatchlistEntry) (pid : String) (oldData newData : ProductSnapshot),
      (∀ u ty, notifsTo (checkProductChanges wl pid oldData newData) u ty =
        watcherEntryCount wl u pid * (if dimTriggered ty oldData newData then 1 else 0)) ∧
      (wl.filter (fun w => decide (w.product_id = pid) && w.notify_changes) = [] →
        checkProductChanges wl pid oldData newData = []) := by
  intro wl pid oldData newData
  constructor
  · intro u ty
    unfold checkProductChanges
    rw [notifsTo_append, notifsTo_append]
    by_cases h1 : oldData.total_rate ≠ newData.total_rate <;>
      by_cases h2 : jsArrayCount newData.rulings > jsArrayCount oldData.rulings <;>
      by_cases h3 : jsArrayCount newData.exclusions > jsArrayCount oldData.exclusions <;>
      cases ty <;>
      simp [h1, h2, h3, notifsTo_notifyProductWatchers, notifsTo_nil, dimTriggered]
  · intro h
    unfold checkProductChanges
    rw [notifyProductWatchers_eq_nil wl _ h, notifyProductWatchers_eq_nil wl _ h,
      notifyProductWatchers_eq_nil wl _ h]
    simp

/-- Upstream JSON payload of a list endpoint: either an array of items or some
other JSON value (object, string, null, number). -/
inductive UpstreamPayload (α : Type) where
  | arrayOf (items : List α)
  | notArray
deriving DecidableEq, Repr

/-- Coercion applied by the USTR, CBP and search fetches:
Array.isArray(response.data) gives the array, anything else the empty list. -/
def coerceArrayPayload {α : Type} : UpstreamPayload α → List α
  | .arrayOf xs => xs
  | .notArray => []

/-- Model of getSection301Tariffs (api/ustr.ts) from the HTTP response on: a
non-200 status raises, the body is passed through the array coercion. -/
def getSection301TariffsResult {α : Type} (status : Nat) (data : UpstreamPayload α) :
    Except String (List α) :=
  if status ≠ 200 then Except.error "Failed to fetch Section 301 tariffs"
  else Except.ok (coerceArrayPayload data)

/-- One rate entry inside an HTS chapter section. -/
structure HtsRateEntry where
  hts_code : String
  general : String
deriving DecidableEq, Repr

/-- Raw section of an upstream HTS chapter payload; options model absent or
non-array fields. -/
structure RawSection where
  code : Option String
  description : Option String
  rates : Option (List HtsRateEntry)
deriving DecidableEq, Repr

/-- Raw HTS chapter payload; the whole value is optional because the payload
may not be an object at all. -/
structure RawChapter where
  chapter : Option String
  description : Option String
  sections : Option (List RawSection)
deriving DecidableEq, Repr

/-- Validated section of an HTS chapter. -/
structure HtsSection where
  code : String
  description : String
  rates : List HtsRateEntry
deriving DecidableEq, Repr

/-- Validated HTS chapter. -/
structure HtsChapter where
  chapter : String
  description : String
  sections : List HtsSection
deriving DecidableEq, Repr

/-- Falsiness of an optional string field (undefined, null or empty string). -/
def falsyStr : Option String → Bool
  | none => true
  | some s => s.isEmpty

/-- Model of validateHtsChapter (api/usitc.ts): a non-object payload or a falsy
chapter or description or a non-array sections field raises; each section is
normalized with falsy fallbacks. -/
def validateHtsChapter (data : Option RawChapter) : Except String HtsChapter :=
  match data with
  | none => Except.error "Invalid HTS chapter data format"
  | some d =>
    if falsyStr d.chapter || falsyStr d.description || d.sections.isNone then
      Except.error "Missing required fields in HTS chapter data"
    else
      Except.ok
        { chapter := d.chapter.getD ""
          description := d.description.getD ""
          sections := (d.sections.getD []).map (fun s =>
            { code := s.code.getD ""
              description := s.description.getD ""
              rates := s.rates.getD [] }) }

/-- C9 counterexample: with HTTP status 200 and a malformed (non-array) body,
getSection301Tariffs silently coerces the payload to the empty list and
returns it successfully; no validation error is raised for that fetch,
contrary to the claim that every source fetch fails on malformed payloads. -/
theorem getSection301Tariffs_malformed_coerced_cex :
    getSection301TariffsResult 200 (UpstreamPayload.notArray : UpstreamPayload Unit) =
      Except.ok [] := rfl

/-- C9 amended: the HTS chapter fetch validates its payload and raises exactly
on malformed data (non-object payload, falsy chapter or description, or
non-array sections), while the array-shaped fetches such as getSection301Tariffs
coerce a malformed body to the empty list instead of raising. -/
theorem source_fetch_validation :
    (∀ data : Option RawChapter,
       (∃ msg, validateHtsChapter data = Except.error msg) ↔
         (data = none ∨ ∃ d, data = some d ∧
           (falsyStr d.chapter || falsyStr d.description || d.sections.isNone) = true)) ∧
    (∀ xs : List Unit,
       getSection301TariffsResult 200 (UpstreamPayload.arrayOf xs) = Except.ok xs) ∧
    getSection301TariffsResult 200 (UpstreamPayload.notArray : UpstreamPayload Unit) =
      Except.ok [] := by
  refine ⟨?_, fun xs => rfl, rfl⟩
  intro data
  cases data with
  | none => simp [validateHtsChapter]
  | some d =>
    by_cases h : (falsyStr d.chapter || falsyStr d.description || d.sections.isNone) = true
    · simp [validateHtsChapter, h]
      simpa [Option.isNone_iff_eq_none] using h
    · simp [validateHtsChapter, h]
      simpa [Option.isNone_iff_eq_none, and_assoc] using h

/-- Federal Register notice as mapped by getTariffNotices. -/
structure Notice where
  document_number : String
  title : String
  abstract : String
  publication_date : Nat
deriving DecidableEq, Repr

/-- Row of the trade_updates table. -/
structure TradeUpdateRow where
  title : String
  description : String
  impact : String
  source_reference : String
  published_date : Nat
deriving DecidableEq, Repr

/-- Whether the pattern occurs at the head of the character list. -/
def leadsWith : List Char → List Char → Bool
  | [], _ => true
  | _ :: _, [] => false
  | p :: ps, c :: cs => p == c && leadsWith ps cs

/-- Whether the pattern occurs anywhere in the character list (the model of
JavaScript String.includes). -/
def hasSeq (pat : List Char) : List Char → Bool
  | [] => pat.isEmpty
  | c :: cs => leadsWith pat (c :: cs) || hasSeq pat cs

/-- Model of determineImpactLevel (jobs/sync-updates.ts): keyword search over
the lowercased concatenation of title and abstract. -/
def determineImpactLevel (title abstract : String) : String :=
  let content := (title ++ " " ++ abstract).data.map Char.toLower
  if hasSeq "immediate effect".data content || hasSeq "significant change".data content ||
      hasSeq "major revision".data content || hasSeq "substantial increase".data content then
    "high"
  else if hasSeq "modification".data content || hasSeq "amendment".data content ||
      hasSeq "updated rates".data content || hasSeq "changes to".data content then
    "medium"
  else "low"

/-- Insertion into a list sorted by descending published_date. -/
def insertByDateDesc (r : TradeUpdateRow) : List TradeUpdateRow → List TradeUpdateRow
  | [] => [r]
  | x :: xs =>
    if r.published_date ≤ x.published_date then x :: insertByDateDesc r xs
    else r :: x :: xs

/-- The trade_updates table ordered by published_date descending, as returned
by the ordered select of syncUpdates. -/
def sortByDateDesc : List TradeUpdateRow → List TradeUpdateRow
  | [] => []
  | x :: xs => insertByDateDesc x (sortByDateDesc xs)

/-- Source references visible to syncUpdates: only the 100 most recent rows by
published_date are selected (order desc, limit 100 in jobs/sync-updates.ts). -/
def recentRefs (table : List TradeUpdateRow) : List String :=
  ((sortByDateDesc table).take 100).map (fun r => r.source_reference)

/-- Filtering step of syncUpdates: keep the notices whose document_number is
not among the selected source references. -/
def filterNewNotices (table : List TradeUpdateRow) (notices : List Notice) : List Notice :=
  notices.filter (fun n => !((recentRefs table).contains n.document_number))

/-- Row inserted into trade_updates by syncUpdates for a new notice. -/
def noticeRow (n : Notice) : TradeUpdateRow :=
  { title := n.title
    description := n.abstract
    impact := determineImpactLevel n.title n.abstract
    source_reference := n.document_number
    published_date := n.publication_date }

/-- One pass of syncUpdates over the trade_updates table: returns the grown
table together with the inserted rows. -/
def syncUpdatesPass (table : List TradeUpdateRow) (notices : List Notice) :
    List TradeUpdateRow × List TradeUpdateRow :=
  let inserted := (filterNewNotices table notices).map noticeRow
  (table ++ inserted, inserted)

theorem insertByDateDesc_perm (r : TradeUpdateRow) (l : List TradeUpdateRow) :
    (insertByDateDesc r l).Perm (r :: l) := by
  induction l with
  | nil => exact List.Perm.refl _
  | cons x xs ih =>
    unfold insertByDateDesc
    by_cases h : r.published_date ≤ x.published_date
    · rw [if_pos h]
      exact (ih.cons x).trans (List.Perm.swap r x xs)
    · rw [if_neg h]

theorem sortByDateDesc_perm (l : List TradeUpdateRow) :
    (sortByDateDesc l).Perm l := by
  induction l with
  | nil => exact List.Perm.refl _
  | cons x xs ih =>
    exact (insertByDateDesc_perm x (sortByDateDesc xs)).trans (ih.cons x)

theorem mem_recentRefs_of_mem (table : List TradeUpdateRow) (r : TradeUpdateRow)
    (hmem : r ∈ table) (hlen : table.length ≤ 100) :
    r.source_reference ∈ recentRefs table := by
  unfold recentRefs
  have hsort : r ∈ sortByDateDesc table := ((sortByDateDesc_perm table).mem_iff).mpr hmem
  have hslen : (sortByDateDesc table).length = table.length :=
    (sortByDateDesc_perm table).length_eq
  rw [List.take_of_length_le (by omega)]
  exact List.mem_map_of_mem _ hsort

/-- A recent trade_updates row used by the C7 counterexample. -/
def recentRow : TradeUpdateRow :=
  { title := "recent"
    description := ""
    impact := "low"
    source_reference := "recent-ref"
    published_date := 10 }

/-- An old trade_updates row whose reference matches the incoming notice. -/
def oldRow : TradeUpdateRow :=
  { title := "old"
    description := ""
    impact := "low"
    source_reference := "2024-12345"
    published_date := 0 }

/-- A trade_updates table with 101 rows, the matching one being the oldest. -/
def cexUpdatesTable : List TradeUpdateRow := List.replicate 100 recentRow ++ [oldRow]

/-- A notice whose document_number is already stored in the table. -/
def cexNotice : Notice :=
  { document_number := "2024-12345"
    title := "Second pass notice"
    abstract := ""
    publication_date := 20 }

/-- C7 counterexample: with 101 stored trade_updates rows, a notice whose
document_number equals the source_reference of the oldest stored row is not
skipped by syncUpdates, because only the 100 most recent rows are consulted;
the second pass therefore inserts a new row rather than completing with zero
insertions. -/
theorem syncUpdates_skip_cex :
    oldRow ∈ cexUpdatesTable ∧
    oldRow.source_reference = cexNotice.document_number ∧
    filterNewNotices cexUpdatesTable [cexNotice] = [cexNotice] ∧
    (syncUpdatesPass cexUpdatesTable [cexNotice]).2 ≠ [] := by
  refine ⟨?_, rfl, ?_, ?_⟩
  · simp [cexUpdatesTable]
  · decide
  · decide

/-- C7 amended: syncUpdates skips exactly the notices whose document_number is
among the source references of the 100 most recent trade_updates rows by
published_date; in particular when the table after the first pass holds at
most 100 rows, a second pass over the same notices inserts nothing. -/
theorem syncUpdates_skip_recent :
    (∀ (table : List TradeUpdateRow) (notices : List Notice) (n : Notice),
       n.document_number ∈ recentRefs table → n ∉ filterNewNotices table notices) ∧
    (∀ (table : List TradeUpdateRow) (notices : List Notice),
       ((syncUpdatesPass table notices).1).length ≤ 100 →
       (syncUpdatesPass (syncUpdatesPass table notices).1 notices).2 = []) := by
  constructor
  · intro table notices n href hmem
    unfold filterNewNotices at hmem
    have := (List.mem_filter.mp hmem).2
    simp only [Bool.not_eq_true', Bool.not_eq_false] at this
    exact absurd href (by simpa using this)
  · intro table notices hlen
    have hnil : filterNewNotices (syncUpdatesPass table notices).1 notices = [] := by
      apply List.filter_eq_nil_iff.mpr
      intro n hn
      simp only [Bool.not_eq_true, Bool.not_eq_false]
      have hrefmem : ∃ r ∈ (syncUpdatesPass table notices).1,
          r.source_reference = n.document_number := by
        by_cases hkept : n ∈ filterNewNotices table notices
        · refine ⟨noticeRow n, ?_, rfl⟩
          unfold syncUpdatesPass
          exact List.mem_append_right _ (List.mem_map_of_mem noticeRow hkept)
        · have hpred : ((recentRefs table).contains n.document_number) = true := by
            by_contra hc
            exact hkept (List.mem_filter.mpr ⟨hn, by simpa using hc⟩)
          have hdoc : n.document_number ∈ recentRefs table := by simpa using hpred
          obtain ⟨r, hr, hrref⟩ := List.mem_map.mp hdoc
          refine ⟨r, ?_, hrref⟩
          have : r ∈ sortByDateDesc table := List.mem_of_mem_take hr
          have : r ∈ table := ((sortByDateDesc_perm table).mem_iff).mp this
          unfold syncUpdatesPass
          exact List.mem_append_left _ this
      obtain ⟨r, hr, hrref⟩ := hrefmem
      have := mem_recentRefs_of_mem _ r hr hlen
      rw [hrref] at this
      simpa using this
    have hsnd : (syncUpdatesPass (syncUpdatesPass table notices).1 notices).2 =
        (filterNewNotices (syncUpdatesPass table notices).1 notices).map noticeRow := rfl
    rw [hsnd, hnil]
    rfl

/-- Witness for the amended C7 theorem at a one-row table whose reference
matches the incoming notice. -/
theorem syncUpdates_skip_recent_witness :
    (cexNotice ∉ filterNewNotices [oldRow] [cexNotice]) ∧
    (syncUpdatesPass (syncUpdatesPass [oldRow] [cexNotice]).1 [cexNotice]).2 = [] :=
  ⟨syncUpdates_skip_recent.1 [oldRow] [cexNotice] cexNotice (by decide),
   syncUpdates_skip_recent.2 [oldRow] [cexNotice] (by decide)⟩

/-- Status column of the sync_status table. -/
inductive SyncStatus where
  | running
  | completed
  | failed
deriving DecidableEq, Repr

/-- Final status of the sync_status row written by syncTariffs
(jobs/sync-tariffs.ts), as a function of the fetched inputs: the row is
inserted in running; a thrown setup error is caught and the row is marked
failed; an empty countries or products list makes the function return early
without touching the row; otherwise the per-item queue is drained and the row
is marked completed. -/
def syncTariffsRowStatus (countriesResult : Except String (List Country))
    (agreementsResult : Except String (List TradeAgreement))
    (productsResult : Except String (List Product)) : SyncStatus :=
  match countriesResult with
  | .error _ => .failed
  | .ok countries =>
    if countries.isEmpty then .running
    else
      match agreementsResult with
      | .error _ => .failed
      | .ok _ =>
        match productsResult with
        | .error _ => .failed
        | .ok products =>
          if products.isEmpty then .running
          else .completed

/-- C5: a tariff sync run that finds no work (no countries, or no products)
returns early and leaves its sync_status row in the non-terminal status
running forever, while runs with work reach a terminal status; the claim that
every run transitions exactly once to completed or failed fails on the
no-work paths. -/
theorem syncTariffs_no_work_leaves_running :
    syncTariffsRowStatus (Except.ok []) (Except.ok []) (Except.ok []) = SyncStatus.running ∧
    syncTariffsRowStatus (Except.ok [{ id := "c1", code := "US", name := "United States" }])
      (Except.ok []) (Except.ok []) = SyncStatus.running ∧
    SyncStatus.running ≠ SyncStatus.completed ∧
    SyncStatus.running ≠ SyncStatus.failed ∧
    syncTariffsRowStatus (Except.ok [{ id := "c1", code := "US", name := "United States" }])
      (Except.ok [])
      (Except.ok [{ id := "p1", hts_code := "0101.21.0000", name := "Horses",
                    base_rate := 5, additional_rates := none }]) = SyncStatus.completed := by
  refine ⟨rfl, rfl, by decide, by decide, rfl⟩

/-- Report of one task of the retry queue. -/
inductive TaskReport where
  | succeeded
  | permanentlyFailed
deriving DecidableEq, Repr

/-- Attempt loop of one task: try the attempt at the given index, retry on
failure while budget remains. -/
def runTaskAux (outcomes : Nat → Bool) : Nat → Nat → TaskReport
  | start, 0 => if outcomes start then .succeeded else .permanentlyFailed
  | start, n + 1 => if outcomes start then .succeeded else runTaskAux outcomes (start + 1) n

/-- Modelled from the spec: the RetryQueue component of the design is realized
by the external p-queue and p-retry packages, whose source is not part of this
repository; per the spec each submitted task "is retried up to `retries` times
... before being treated as permanently failed".  A task is modelled by the
outcome of each of its attempts (true = success); runTask performs the initial
attempt and up to `retries` retries, stopping at the first success. -/
def runTask (retries : Nat) (outcomes : Nat → Bool) : TaskReport :=
  runTaskAux outcomes 0 retries

/-- Modelled from the spec: a batch submitted to the retry queue; every task is
run to its own report, no task error is propagated to the caller waiting on
onIdle, so the batch result is a total list of per-task reports. -/
def runBatch (retries : Nat) (tasks : List (Nat → Bool)) : List TaskReport :=
  tasks.map (runTask retries)

theorem runTaskAux_succeeds (outcomes : Nat → Bool) :
    ∀ (budget start j : Nat), j ≤ budget → outcomes (start + j) = true →
      (∀ k < j, outcomes (start + k) = false) →
      runTaskAux outcomes start budget = .succeeded := by
  intro budget
  induction budget with
  | zero =>
    intro start j hj hsucc _
    interval_cases j
    simpa [runTaskAux] using hsucc
  | succ n ih =>
    intro start j hj hsucc hfail
    cases j with
    | zero =>
      simp only [Nat.add_zero] at hsucc
      simp [runTaskAux, hsucc]
    | succ m =>
      have h0 : outcomes start = false := by
        have := hfail 0 (Nat.succ_pos m)
        simpa using this
      simp only [runTaskAux, h0, Bool.false_eq_true, if_false]
      refine ih (start + 1) m (Nat.le_of_succ_le_succ hj) ?_ ?_
      · have : start + 1 + m = start + (m + 1) := by omega
        rw [this]
        exact hsucc
      · intro k hk
        have : start + 1 + k = start + (k + 1) := by omega
        rw [this]
        exact hfail (k + 1) (by omega)

theorem runTaskAux_fails (outcomes : Nat → Bool) :
    ∀ (budget start : Nat), (∀ k ≤ budget, outcomes (start + k) = false) →
      runTaskAux outcomes start budget = .permanentlyFailed := by
  intro budget
  induction budget with
  | zero =>
    intro start hfail
    have := hfail 0 (Nat.le_refl 0)
    simpa [runTaskAux] using this
  | succ n ih =>
    intro start hfail
    have h0 : outcomes start = false := by simpa using hfail 0 (Nat.zero_le _)
    simp only [runTaskAux, h0, Bool.false_eq_true, if_false]
    refine ih (start + 1) ?_
    intro k hk
    have : start + 1 + k = start + (k + 1) := by omega
    rw [this]
    exact hfail (k + 1) (by omega)

/-- C3 counterexample: with retries set to 1, a task that fails exactly
`retries` times (its first attempt) and then succeeds on its retry is reported
successful, not treated as permanently failed as the claim states. -/
theorem retryQueue_fails_retries_times_cex :
    (fun n => decide (1 ≤ n)) 0 = false ∧
    runTask 1 (fun n => decide (1 ≤ n)) = TaskReport.succeeded := by
  refine ⟨rfl, rfl⟩

/-- C3 amended: a task whose first success comes within the attempt budget
(initial attempt plus `retries` retries) is reported successful exactly once;
a task that fails its initial attempt and all `retries` retries (1+retries
failures) is reported permanently failed; each task's report depends only on
its own outcomes, the batch always yields a full list of per-task reports and
no task error is raised to the caller of onIdle. -/
theorem retryQueue_isolation :
    (∀ (retries : Nat) (outcomes : Nat → Bool) (j : Nat),
       j ≤ retries → outcomes j = true → (∀ k < j, outcomes k = false) →
       runTask retries outcomes = .succeeded) ∧
    (∀ (retries : Nat) (outcomes : Nat → Bool),
       (∀ k ≤ retries, outcomes k = false) →
       runTask retries outcomes = .permanentlyFailed) ∧
    (∀ (retries : Nat) (tasks : List (Nat → Bool)),
       (runBatch retries tasks).length = tasks.length ∧
       ∀ i : Nat, (runBatch retries tasks)[i]? = (tasks[i]?).map (runTask retries)) := by
  refine ⟨?_, ?_, ?_⟩
  · intro retries outcomes j hj hsucc hfail
    exact runTaskAux_succeeds outcomes retries 0 j hj (by simpa using hsucc)
      (fun k hk => by simpa using hfail k hk)
  · intro retries outcomes hfail
    exact runTaskAux_fails outcomes retries 0 (fun k hk => by simpa using hfail k hk)
  · intro retries tasks
    exact ⟨List.length_map _ _, fun i => List.getElem?_map ..⟩

/-- Witness for the amended C3 theorem: a task failing once then succeeding
within a budget of two retries succeeds; an always-failing task is permanently
failed; a two-task batch yields one report per task. -/
theorem retryQueue_isolation_witness :
    runTask 2 (fun n => decide (1 ≤ n)) = TaskReport.succeeded ∧
    runTask 2 (fun _ => false) = TaskReport.permanentlyFailed ∧
    (runBatch 2 [fun n => decide (1 ≤ n), fun _ => false]).length = 2 :=
  ⟨retryQueue_isolation.1 2 (fun n => decide (1 ≤ n)) 1 (by decide) (by decide)
      (fun k hk => by interval_cases k; decide),
   (retryQueue_isolation.2.1) 2 (fun _ => false) (fun k _ => rfl),
   ((retryQueue_isolation.2.2) 2 [fun n => decide (1 ≤ n), fun _ => false]).1⟩

/-- Window membership test of the rate limiter: time > now - windowMs, stated
without truncated subtraction. -/
def inWindow (w now t : Nat) : Bool := decide (now < t + w)

/-- Model of RateLimiter.shouldThrottle: the in-window request count reached
maxRequests. -/
def shouldThrottle (w maxR now : Nat) (ts : List Nat) : Bool :=
  decide (maxR ≤ (ts.filter (inWindow w now)).length)

/-- Model of RateLimiter.calculateDelay: wait until the oldest in-window
timestamp leaves the window, plus the 100ms buffer.  The source guard
`if (!oldestInWindow) return 0` is a JavaScript falsiness test: it yields a
zero delay both when no timestamp is in the window (undefined) and when the
oldest in-window timestamp is the number 0. -/
def calculateDelay (w now : Nat) (ts : List Nat) : Nat :=
  match (ts.filter (inWindow w now)).min? with
  | none => 0
  | some o => if o = 0 then 0 else o + w - now + 100

/-- Model of RateLimiter.addRequest: push the current time, prune what left
the window. -/
def addRequest (w now : Nat) (ts : List Nat) : List Nat :=
  (ts ++ [now]).filter (inWindow w now)

/-- Model of RateLimiter.throttle for one key: check the budget at the start
time, sleep for the computed delay when the budget is exhausted, then record
the call at the time reached; returns the stored timestamps and the recorded
time. -/
def throttleCall (w maxR : Nat) (ts : List Nat) (s : Nat) : List Nat × Nat :=
  let r := if shouldThrottle w maxR s ts then s + calculateDelay w s ts else s
  (addRequest w r ts, r)

/-- Sequential runs of throttle on one key: each call starts at its arrival
time or at the completion of the previous call, whichever is later; returns
the stored timestamps and the chronological list of recorded times. -/
def runRL (w maxR : Nat) : List Nat → List Nat → Nat → List Nat × List Nat
  | [], ts, _ => (ts, [])
  | a :: rest, ts, clock =>
    let s := max a clock
    let p := throttleCall w maxR ts s
    let q := runRL w maxR rest p.1 p.2
    (q.1, p.2 :: q.2)

/-- Number of recorded times inside the trailing window (T - w, T]. -/
def windCount (w T : Nat) (recs : List Nat) : Nat :=
  recs.countP (fun t => decide (T < t + w) && decide (t ≤ T))

/-- Invariant of the sequential rate limiter on runs without epoch-zero
timestamps: stored and recorded times are positive and never exceed the clock,
every trailing window of recorded times is within budget, and at any future
instant the stored list filters to the same in-window timestamps as the full
record history.  Positivity keeps the falsy-zero guard of calculateDelay from
firing on a genuine timestamp. -/
structure RLInv (w maxR : Nat) (ts recs : List Nat) (clock : Nat) : Prop where
  stored_le : ∀ t ∈ ts, t ≤ clock
  stored_pos : ∀ t ∈ ts, 1 ≤ t
  recs_le : ∀ t ∈ recs, t ≤ clock
  bound : ∀ T, windCount w T recs ≤ maxR
  stored_eq : ∀ s, clock ≤ s → ts.filter (inWindow w s) = recs.filter (inWindow w s)

theorem RLInv_init (w maxR : Nat) : RLInv w maxR [] [] 0 :=
  ⟨fun t ht => absurd ht (List.not_mem_nil t),
   fun t ht => absurd ht (List.not_mem_nil t),
   fun t ht => absurd ht (List.not_mem_nil t),
   fun T => by simp [windCount],
   fun s _ => rfl⟩

theorem countP_lt_of_mem_not (l : List Nat) (p q : Nat → Bool) (o : Nat)
    (ho : o ∈ l) (hpq : ∀ t ∈ l, q t = true → p t = true)
    (hpo : p o = true) (hqo : q o = false) :
    l.countP q < l.countP p := by
  induction l with
  | nil => cases ho
  | cons x xs ih =>
    rw [List.countP_cons, List.countP_cons]
    rcases List.mem_cons.mp ho with hx | hx
    · subst hx
      rw [hpo, hqo]
      simp only [Bool.false_eq_true, reduceIte, if_false]
      have : xs.countP q ≤ xs.countP p :=
        List.countP_mono_left (fun t ht => hpq t (List.mem_cons_of_mem _ ht))
      omega
    · have hlt : xs.countP q < xs.countP p :=
        ih hx (fun t ht => hpq t (List.mem_cons_of_mem _ ht))
      have hx1 : q x = true → p x = true := hpq x (List.mem_cons_self x xs)
      by_cases hq : q x = true
      · rw [hq, hx1 hq]
        simp only [Bool.false_eq_true, reduceIte, if_false]
        omega
      · rw [Bool.not_eq_true] at hq
        rw [hq]
        by_cases hp : p x = true
        · rw [hp]
          simp only [Bool.false_eq_true, reduceIte, if_false]
          omega
        · rw [Bool.not_eq_true] at hp
          rw [hp]
          simp only [Bool.false_eq_true, reduceIte, if_false]
          omega

theorem throttleCall_record_ge (w maxR : Nat) (ts : List Nat) (s : Nat) :
    s ≤ (throttleCall w maxR ts s).2 := by
  unfold throttleCall
  by_cases h : shouldThrottle w maxR s ts = true <;> simp [h]

theorem throttleCall_key_bound (w maxR : Nat) (hmax : 0 < maxR)
    (ts recs : List Nat) (clock s : Nat) (hs : clock ≤ s)
    (inv : RLInv w maxR ts recs clock) :
    recs.countP (fun t => decide ((throttleCall w maxR ts s).2 < t + w)) < maxR := by
  have hcount : recs.countP (inWindow w s) ≤ maxR := by
    have h1 : recs.countP (inWindow w s) =
        recs.countP (fun t => decide (s < t + w) && decide (t ≤ s)) := by
      apply List.countP_congr
      intro t ht
      have hts : t ≤ s := le_trans (inv.recs_le t ht) hs
      simp [inWindow, hts]
    rw [h1]
    exact inv.bound s
  have hstored : (ts.filter (inWindow w s)).length = recs.countP (inWindow w s) := by
    rw [inv.stored_eq s hs, List.countP_eq_length_filter]
  unfold throttleCall
  by_cases h : shouldThrottle w maxR s ts = true
  · rw [if_pos h]
    unfold shouldThrottle at h
    rw [decide_eq_true_eq] at h
    have hne : (ts.filter (inWindow w s)) ≠ [] := by
      intro hnil
      rw [hnil] at h
      simp at h
      omega
    obtain ⟨o, ho⟩ : ∃ o, (ts.filter (inWindow w s)).min? = some o := by
      cases hmo : (ts.filter (inWindow w s)).min? with
      | none => exact absurd (List.min?_eq_none_iff.mp hmo) hne
      | some o => exact ⟨o, rfl⟩
    have homem : o ∈ ts.filter (inWindow w s) :=
      List.min?_mem (fun a b => min_choice a b) ho
    have hwin : inWindow w s o = true := (List.mem_filter.mp homem).2
    unfold inWindow at hwin
    rw [decide_eq_true_eq] at hwin
    have hopos : 1 ≤ o := inv.stored_pos o (List.mem_filter.mp homem).1
    have hrecs : o ∈ recs := by
      have := inv.stored_eq s hs
      rw [this] at homem
      exact (List.mem_filter.mp homem).1
    unfold calculateDelay
    rw [ho]
    have hr : s + (if o = 0 then 0 else o + w - s + 100) = o + w + 100 := by
      rw [if_neg (by omega : ¬o = 0)]
      omega
    rw [hr]
    have hq : recs.countP (fun t => decide (o + w + 100 < t + w)) =
        recs.countP (fun t => decide (o + 100 < t)) := by
      apply List.countP_congr
      intro t _
      by_cases hc : o + 100 < t
      · rw [decide_eq_true hc, decide_eq_true (by omega : o + w + 100 < t + w)]
      · rw [decide_eq_false hc, decide_eq_false (by omega : ¬o + w + 100 < t + w)]
    rw [hq]
    have hlt : recs.countP (fun t => decide (o + 100 < t)) < recs.countP (inWindow w s) := by
      apply countP_lt_of_mem_not recs (inWindow w s) _ o hrecs
      · intro t _ hqt
        rw [decide_eq_true_eq] at hqt
        unfold inWindow
        rw [decide_eq_true_eq]
        omega
      · unfold inWindow
        rw [decide_eq_true_eq]
        omega
      · rw [decide_eq_false_iff_not]
        omega
    omega
  · rw [if_neg h]
    unfold shouldThrottle at h
    rw [decide_eq_true_eq] at h
    push_neg at h
    have : recs.countP (fun t => decide (s < t + w)) = recs.countP (inWindow w s) := rfl
    rw [this]
    omega

theorem throttleCall_inv (w maxR : Nat) (hmax : 0 < maxR)
    (ts recs : List Nat) (clock s : Nat) (hs : clock ≤ s) (hs1 : 1 ≤ s)
    (inv : RLInv w maxR ts recs clock) :
    RLInv w maxR (throttleCall w maxR ts s).1
      (recs ++ [(throttleCall w maxR ts s).2]) (throttleCall w maxR ts s).2 := by
  have hr : s ≤ (throttleCall w maxR ts s).2 := throttleCall_record_ge w maxR ts s
  have hkey : recs.countP (fun t => decide ((throttleCall w maxR ts s).2 < t + w)) < maxR :=
    throttleCall_key_bound w maxR hmax ts recs clock s hs inv
  set r := (throttleCall w maxR ts s).2 with hrdef
  have hfst : (throttleCall w maxR ts s).1 = addRequest w r ts := rfl
  constructor
  · intro t ht
    rw [hfst] at ht
    unfold addRequest at ht
    have := List.mem_filter.mp ht
    rcases List.mem_append.mp this.1 with hmem | hmem
    · exact le_trans (inv.stored_le t hmem) (le_trans hs hr)
    · rw [List.mem_singleton.mp hmem]
  · intro t ht
    rw [hfst] at ht
    unfold addRequest at ht
    have := List.mem_filter.mp ht
    rcases List.mem_append.mp this.1 with hmem | hmem
    · exact inv.stored_pos t hmem
    · rw [List.mem_singleton.mp hmem]
      exact le_trans hs1 hr
  · intro t ht
    rcases List.mem_append.mp ht with hmem | hmem
    · exact le_trans (inv.recs_le t hmem) (le_trans hs hr)
    · rw [List.mem_singleton.mp hmem]
  · intro T
    unfold windCount
    rw [List.countP_append]
    by_cases hin : (decide (T < r + w) && decide (r ≤ T)) = true
    · have h1 : List.countP (fun t => decide (T < t + w) && decide (t ≤ T)) [r] = 1 := by
        simp [List.countP_cons, hin]
      have hrT : r ≤ T := by
        rcases Bool.and_eq_true_iff.mp hin with ⟨_, h2⟩
        exact of_decide_eq_true h2
      have hsub : recs.countP (fun t => decide (T < t + w) && decide (t ≤ T)) ≤
          recs.countP (fun t => decide (r < t + w)) := by
        apply List.countP_mono_left
        intro t _ hpt
        rcases Bool.and_eq_true_iff.mp hpt with ⟨h2, _⟩
        rw [decide_eq_true_eq] at h2
        rw [decide_eq_true_eq]
        omega
      omega
    · have h0 : List.countP (fun t => decide (T < t + w) && decide (t ≤ T)) [r] = 0 := by
        simp only [List.countP_cons, List.countP_nil]
        rw [Bool.not_eq_true] at hin
        simp [hin]
      have := inv.bound T
      unfold windCount at this
      omega
  · intro s2 hs2
    rw [hfst]
    unfold addRequest
    rw [List.filter_filter]
    have hcong : ∀ t ∈ ts ++ [r],
        (inWindow w s2 t && inWindow w r t) = inWindow w s2 t := by
      intro t _
      by_cases hc : inWindow w s2 t = true
      · have : inWindow w r t = true := by
          unfold inWindow at hc ⊢
          rw [decide_eq_true_eq] at hc
          rw [decide_eq_true_eq]
          omega
        rw [hc, this]
        rfl
      · rw [Bool.not_eq_true] at hc
        rw [hc, Bool.false_and]
    rw [List.filter_congr hcong, List.filter_append,
      inv.stored_eq s2 (le_trans hs (le_trans hr hs2)), ← List.filter_append]

theorem runRL_bound (w maxR : Nat) (hmax : 0 < maxR) :
    ∀ (arrivals ts recs : List Nat) (clock : Nat),
      (∀ a ∈ arrivals, 1 ≤ a) →
      RLInv w maxR ts recs clock →
      ∀ T, windCount w T (recs ++ (runRL w maxR arrivals ts clock).2) ≤ maxR := by
  intro arrivals
  induction arrivals with
  | nil =>
    intro ts recs clock _ inv T
    simpa [runRL] using inv.bound T
  | cons a rest ih =>
    intro ts recs clock hpos inv T
    have hs : clock ≤ max a clock := Nat.le_max_right a clock
    have hs1 : 1 ≤ max a clock :=
      le_trans (hpos a (List.mem_cons_self a rest)) (Nat.le_max_left a clock)
    have inv2 := throttleCall_inv w maxR hmax ts recs clock (max a clock) hs hs1 inv
    have hstep := ih (throttleCall w maxR ts (max a clock)).1
      (recs ++ [(throttleCall w maxR ts (max a clock)).2])
      (throttleCall w maxR ts (max a clock)).2
      (fun b hb => hpos b (List.mem_cons_of_mem a hb)) inv2 T
    have hshape : recs ++ (runRL w maxR (a :: rest) ts clock).2 =
        (recs ++ [(throttleCall w maxR ts (max a clock)).2]) ++
          (runRL w maxR rest (throttleCall w maxR ts (max a clock)).1
            (throttleCall w maxR ts (max a clock)).2).2 := by
      show recs ++ ((throttleCall w maxR ts (max a clock)).2 ::
        (runRL w maxR rest (throttleCall w maxR ts (max a clock)).1
          (throttleCall w maxR ts (max a clock)).2).2) = _
      rw [List.append_cons]
    rw [hshape]
    exact hstep

/-- C2: the window bound fails on the code because of the falsy-zero guard of
calculateDelay (`if (!oldestInWindow) return 0` treats the numeric timestamp 0
as absent): three back-to-back calls on a limiter with windowMs 1000 and
maxRequests 2, starting at clock 0, are all recorded at time 0 — the oldest
in-window timestamp is 0, so the third call gets delay 0 instead of
suspending — and the trailing window ending at T = 0 holds 3 > 2 recorded
timestamps; at any positive start time the intended behavior shows: the run
[1, 1, 1] suspends the third call to 1101 = 1 + 1000 + 100ms buffer. -/
theorem rateLimiter_falsy_zero_burst :
    (runRL 1000 2 [0, 0, 0] [] 0).2 = [0, 0, 0] ∧
    windCount 1000 0 (runRL 1000 2 [0, 0, 0] [] 0).2 = 3 ∧
    ¬windCount 1000 0 (runRL 1000 2 [0, 0, 0] [] 0).2 ≤ 2 ∧
    (runRL 1000 2 [1, 1, 1] [] 0).2 = [1, 1, 1101] := by
  exact ⟨rfl, rfl, by decide, rfl⟩

/-- Supporting result for C2: on every sequential run in which no call can be
recorded at the epoch-zero timestamp (all arrival times positive), the bound
the spec states does hold: any trailing window of length windowMs contains at
most maxRequests recorded timestamps. -/
theorem rateLimiter_window_bound_positive :
    ∀ (w maxR : Nat), 0 < maxR → ∀ (arrivals : List Nat),
      (∀ a ∈ arrivals, 1 ≤ a) → ∀ T : Nat,
      windCount w T (runRL w maxR arrivals [] 0).2 ≤ maxR := by
  intro w maxR hmax arrivals hpos T
  simpa using runRL_bound w maxR hmax arrivals [] [] 0 hpos (RLInv_init w maxR) T
